import Mathlib

/-!
Verification of the multi-resolution spatial tile cache and query-batch
coalescer of sf_tree_reporting.

The development shallowly embeds the two core scripts:

* scripts/simulate_intro_query_batches.py — Web Mercator projection helpers,
  tile-range derivation, and the batch-key coalescer simulation
  (simulate_batch_keys) with its three range policies.
* scripts/build_map_parquet_cache.py — the offline cache build: the joined,
  filtered, tile-indexed feature table (trees_fast) and the per-zoom
  aggregate tables (agg_z13 / agg_z14).

Floating-point arithmetic of the source is modelled with exact real
arithmetic (ℝ); Python integers with ℤ/ℕ.  Python dictionaries become
functions into Option, sets become Finsets, and the f-string cache key
"revision:z:min_x-max_x:min_y-max_y" is modelled by the structure
BatchKey carrying the same six integer components (the rendering of the
components into the string is injective, so key equality coincides).
-/

namespace SfTree

/-! ## Batch keys and the served-set discipline
(simulate_intro_query_batches.py, TileRange and the seen_keys logic) -/

/-- TileRange dataclass of simulate_intro_query_batches.py. -/
structure TileRange where
  z : ℤ
  min_x : ℤ
  max_x : ℤ
  min_y : ℤ
  max_y : ℤ
deriving DecidableEq

/-- Model of the cache-key string
`"{revision}:{z}:{min_x}-{max_x}:{min_y}-{max_y}"`: the six integer
components that the string renders injectively. -/
structure BatchKey where
  revision : ℤ
  z : ℤ
  min_x : ℤ
  max_x : ℤ
  min_y : ℤ
  max_y : ℤ
deriving DecidableEq

/-- TileRange.key of the source. -/
def TileRange.key (tr : TileRange) (revision : ℤ) : BatchKey :=
  ⟨revision, tr.z, tr.min_x, tr.max_x, tr.min_y, tr.max_y⟩

/-- One pass through the seen_keys guard of simulate_batch_keys
(lines 187-191): a key already served is discarded, a new key is marked
served and emits one query (the Bool). -/
def serve (seen : Finset BatchKey) (k : BatchKey) : Finset BatchKey × Bool :=
  if k ∈ seen then (seen, false) else (insert k seen, true)

/-- Fold the seen_keys guard over a stream of derived keys. -/
def runServe (seen : Finset BatchKey) : List BatchKey → Finset BatchKey
  | [] => seen
  | k :: ks => runServe (serve seen k).1 ks

/-- Number of queries emitted for a particular key while folding the
seen_keys guard over a stream of derived keys. -/
def emitCount (seen : Finset BatchKey) : List BatchKey → BatchKey → ℕ
  | [], _ => 0
  | k :: ks, target =>
      (if (serve seen k).2 = true ∧ k = target then 1 else 0) +
        emitCount (serve seen k).1 ks target

/-! ## Projection library
(simulate_intro_query_batches.py: Web Mercator math over exact reals) -/

noncomputable section

/-- WEB_MERCATOR_MAX_LAT constant of the source. -/
def WEB_MERCATOR_MAX_LAT : ℝ := 85.05112878

/-- TILE_SIZE constant of the source (raster tileSize 512). -/
def TILE_SIZE : ℝ := 512

/-- clamp(v, lo, hi) of the source. -/
def clamp (v lo hi : ℝ) : ℝ := max lo (min hi v)

/-- math.radians. -/
def radians (d : ℝ) : ℝ := d * Real.pi / 180

/-- math.degrees. -/
def degrees (r : ℝ) : ℝ := r * 180 / Real.pi

/-- world = TILE_SIZE * (2 ** zoom), for a real-valued (fractional) zoom. -/
def worldSize (zoom : ℝ) : ℝ := TILE_SIZE * (2 : ℝ) ^ zoom

/-- lonlat_to_world_px of the source. -/
def lonlat_to_world_px (lon lat zoom : ℝ) : ℝ × ℝ :=
  let lat' := clamp lat (-WEB_MERCATOR_MAX_LAT) WEB_MERCATOR_MAX_LAT
  let world := worldSize zoom
  let x := ((lon + 180) / 360) * world
  let sin_lat := Real.sin (radians lat')
  let y := (1 / 2 - Real.log ((1 + sin_lat) / (1 - sin_lat)) / (4 * Real.pi)) * world
  (x, y)

/-- world_px_to_lonlat of the source. -/
def world_px_to_lonlat (x y zoom : ℝ) : ℝ × ℝ :=
  let world := worldSize zoom
  let lon := (x / world) * 360 - 180
  let n := Real.pi - (2 * Real.pi * y) / world
  let lat := degrees (Real.arctan (Real.sinh n))
  (lon, lat)

/-- approx_bounds of the source; returns (west, east, north, south). -/
def approx_bounds (center_lng center_lat zoom : ℝ) (width_px height_px : ℤ) :
    ℝ × ℝ × ℝ × ℝ :=
  let c := lonlat_to_world_px center_lng center_lat zoom
  let half_w := (width_px : ℝ) / 2
  let half_h := (height_px : ℝ) / 2
  let wn := world_px_to_lonlat (c.1 - half_w) (c.2 - half_h) zoom
  let es := world_px_to_lonlat (c.1 + half_w) (c.2 + half_h) zoom
  (wn.1, es.1, wn.2, es.2)

/-- lon_to_tile_x of the source (z is a rounded integer zoom; every call
site has z ≥ 15, where 2 ** z = 2 ^ z.toNat). -/
def lon_to_tile_x (lon : ℝ) (z : ℤ) : ℤ :=
  ⌊((lon + 180) / 360) * (2 : ℝ) ^ z.toNat⌋

/-- lat_to_tile_y of the source. -/
def lat_to_tile_y (lat : ℝ) (z : ℤ) : ℤ :=
  let lat' := clamp lat (-WEB_MERCATOR_MAX_LAT) WEB_MERCATOR_MAX_LAT
  let lat_rad := radians lat'
  ⌊((1 - Real.log (Real.tan lat_rad + 1 / Real.cos lat_rad) / Real.pi) / 2) *
      (2 : ℝ) ^ z.toNat⌋

/-- tile_range_for_view of the source: tile indices clamped into
[0, 2^z − 1]. -/
def tile_range_for_view (z : ℤ) (west east north south : ℝ) : TileRange :=
  let n : ℤ := 2 ^ z.toNat
  { z := z
    min_x := max 0 (min (n - 1) (lon_to_tile_x west z))
    max_x := max 0 (min (n - 1) (lon_to_tile_x east z))
    min_y := max 0 (min (n - 1) (lat_to_tile_y north z))
    max_y := max 0 (min (n - 1) (lat_to_tile_y south z)) }

/-- Python's round(): round half to even (banker's rounding). -/
def pyRound (x : ℝ) : ℤ :=
  let f := ⌊x⌋
  if x - f < 1 / 2 then f
  else if 1 / 2 < x - f then f + 1
  else if Even f then f else f + 1

/-! ## The coalescer simulation (simulate_batch_keys)

The claims quantify over arbitrary camera trajectories, so the
simulation is parametrized by the stream of frames (the source's
generate_intro_frames output: (zoom, lng, lat, stage_index)) and by the
stream of stage-boundary prefetch events (the source derives both
streams from the scripted intro trajectory). -/

/-- One camera frame (zoom, lng, lat, stage_index); also used for the
stage-boundary prefetch events of the second loop. -/
structure Frame where
  zoom : ℝ
  lng : ℝ
  lat : ℝ
  stage_idx : ℕ

/-- The two range-policy switches of simulate_batch_keys. -/
structure SimFlags where
  freeze_visible_range_per_stage : Bool
  freeze_visible_range_per_zoom : Bool

/-- The mutable state of simulate_batch_keys: the served-set, the
per-zoom key sets and counters (with their support), and the two
range-freezing dictionaries. -/
structure SimState where
  seen : Finset BatchKey
  keys_by_zoom : ℤ → Finset BatchKey
  count_by_zoom : ℤ → ℕ
  zooms : Finset ℤ
  frozen_stage : ℕ × ℤ → Option TileRange
  frozen_zoom : ℤ → Option TileRange

/-- Initial state of a simulation run. -/
def initState : SimState :=
  { seen := ∅
    keys_by_zoom := fun _ => ∅
    count_by_zoom := fun _ => 0
    zooms := ∅
    frozen_stage := fun _ => none
    frozen_zoom := fun _ => none }

/-- Compute the viewport's tile range for one event:
approx_bounds followed by tile_range_for_view. -/
def deriveRange (width_px height_px : ℤ) (zoom lng lat : ℝ) (z : ℤ) : TileRange :=
  let b := approx_bounds lng lat zoom width_px height_px
  tile_range_for_view z b.1 b.2.1 b.2.2.1 b.2.2.2

/-- The seen_keys / keys_by_zoom / count_by_zoom update of
simulate_batch_keys for one derived key (revision is fixed at 1 in the
source): an already-served key changes nothing, a new key is inserted
everywhere and counted under zoom bucket z. -/
def serveKey (st : SimState) (z : ℤ) (k : BatchKey) : SimState :=
  if k ∈ st.seen then st
  else
    { st with
      seen := insert k st.seen
      keys_by_zoom :=
        Function.update st.keys_by_zoom z (insert k (st.keys_by_zoom z))
      count_by_zoom :=
        Function.update st.count_by_zoom z (st.count_by_zoom z + 1)
      zooms := insert z st.zooms }

/-- One frame of the main loop of simulate_batch_keys: round the zoom,
skip z < 15, derive the range (honouring the zoom-locked / stage-locked
freeze policy, freezing on first sight), then run the seen_keys guard. -/
def stepFrame (fl : SimFlags) (width_px height_px : ℤ) (st : SimState)
    (f : Frame) : SimState :=
  let z := pyRound f.zoom
  if z < 15 then st
  else
    let tr0 := deriveRange width_px height_px f.zoom f.lng f.lat z
    if fl.freeze_visible_range_per_zoom then
      match st.frozen_zoom z with
      | some t => serveKey st z (t.key 1)
      | none =>
          serveKey
            { st with frozen_zoom := Function.update st.frozen_zoom z (some tr0) }
            z (tr0.key 1)
    else if fl.freeze_visible_range_per_stage then
      match st.frozen_stage (f.stage_idx, z) with
      | some t => serveKey st z (t.key 1)
      | none =>
          serveKey
            { st with
              frozen_stage :=
                Function.update st.frozen_stage (f.stage_idx, z) (some tr0) }
            z (tr0.key 1)
    else serveKey st z (tr0.key 1)

/-- One stage-boundary prefetch event of the second loop of
simulate_batch_keys: same key path, but the freeze dictionaries are
only read (dict.get with the freshly derived range as default), never
written. -/
def stepPrefetch (fl : SimFlags) (width_px height_px : ℤ) (st : SimState)
    (p : Frame) : SimState :=
  let z := pyRound p.zoom
  if z < 15 then st
  else
    let tr0 := deriveRange width_px height_px p.zoom p.lng p.lat z
    let tr :=
      if fl.freeze_visible_range_per_zoom then (st.frozen_zoom z).getD tr0
      else if fl.freeze_visible_range_per_stage then
        (st.frozen_stage (p.stage_idx, z)).getD tr0
      else tr0
    serveKey st z (tr.key 1)

/-- simulate_batch_keys: fold the main loop over the frames, then the
prefetch loop over the stage-boundary events. -/
def simulate (fl : SimFlags) (width_px height_px : ℤ)
    (frames prefetch : List Frame) : SimState :=
  prefetch.foldl (stepPrefetch fl width_px height_px)
    (frames.foldl (stepFrame fl width_px height_px) initState)

/-- total_estimated_queries_z15_plus: sum of the per-zoom counters over
the Counter's support. -/
def SimState.total (st : SimState) : ℕ := ∑ z in st.zooms, st.count_by_zoom z

/-- Per-frame dynamic range policy (both freeze switches off). -/
def dynFlags : SimFlags := ⟨false, false⟩

/-- Stage-locked range policy. -/
def stageFlags : SimFlags := ⟨true, false⟩

/-- Zoom-locked range policy. -/
def zoomFlags : SimFlags := ⟨false, true⟩

/-! ## Offline cache build (build_map_parquet_cache.py)

The raw JSON rows, the species-enrichment rows, the joined and
tile-indexed trees_fast table, and the per-zoom aggregate caches.
JSON numerics are modelled as exact reals (so TRY_CAST to DOUBLE is
the identity on a present magnitude). -/

/-- One raw input row (data/raw_data.json): the columns the build
reads.  Nullable columns are Options. -/
structure RawTree where
  tree_id : ℤ
  species : Option String
  latitude : Option ℝ
  longitude : Option ℝ
  diameter_at_breast_height : Option ℝ

/-- One species-enrichment row (data/species_data.json): the columns
the build's join and CASE expression read. -/
structure SpeciesRow where
  species : Option String
  tree_category : Option String

/-- CASE lower(trim(COALESCE(se.tree_category, 'default'))) ... END of
the build SQL: normalize the joined category to the fixed enum. -/
def normalize_category (c : Option String) : String :=
  let s := (c.getD "default").trim.toLower
  if s = "palm" then "palm"
  else if s = "broadleaf" then "broadleaf"
  else if s = "spreading" then "spreading"
  else if s = "coniferous" then "coniferous"
  else if s = "columnar" then "columnar"
  else if s = "ornamental" then "ornamental"
  else "default"

/-- LEAST(GREATEST(lat, -85.05112878), 85.05112878) of the build SQL. -/
def latitude_clamped (lat : ℝ) : ℝ :=
  min (max lat (-85.05112878)) 85.05112878

/-- x_norm column: (longitude + 180) / 360. -/
def xnorm (lon : ℝ) : ℝ := (lon + 180) / 360

/-- y_norm column: (1 - ln(tan(radians(latc)) + 1/cos(radians(latc))) / pi) / 2
with latc the clamped latitude. -/
def ynorm (lat : ℝ) : ℝ :=
  (1 - Real.log (Real.tan (radians (latitude_clamped lat)) +
      1 / Real.cos (radians (latitude_clamped lat))) / Real.pi) / 2

/-- xtile_z{z} column of trees_fast: floor(x_norm * 2^z). -/
def xtile_of (lon : ℝ) (z : ℕ) : ℤ := ⌊xnorm lon * (2 : ℝ) ^ z⌋

/-- ytile_z{z} column of trees_fast: floor(y_norm * 2^z). -/
def ytile_of (lat : ℝ) (z : ℕ) : ℤ := ⌊ynorm lat * (2 : ℝ) ^ z⌋

/-- One row of the precomputed trees_fast table (the columns the
aggregate caches and the claims read; x_norm/y_norm are the normalized
Web Mercator coordinates from which every xtile_z/ytile_z column is
floored). -/
structure FastRow where
  tree_id : ℤ
  species : Option String
  latitude : ℝ
  longitude : ℝ
  dbh : ℝ
  tree_category : String
  x_3857 : ℝ
  y_3857 : ℝ
  x_norm : ℝ
  y_norm : ℝ

/-- xtile_z{z} of a trees_fast row. -/
def FastRow.xtile (r : FastRow) (z : ℕ) : ℤ := ⌊r.x_norm * (2 : ℝ) ^ z⌋

/-- ytile_z{z} of a trees_fast row. -/
def FastRow.ytile (r : FastRow) (z : ℕ) : ℤ := ⌊r.y_norm * (2 : ℝ) ^ z⌋

/-- Build one trees_fast row from a raw row (with non-null coordinates)
and an optional matched enrichment row: COALESCE(dbh, 3), category
normalization, EPSG:3857 projection and normalized coordinates. -/
def mkFastRow (t : RawTree) (se : Option SpeciesRow) (lat lon : ℝ) : FastRow :=
  { tree_id := t.tree_id
    species := t.species
    latitude := lat
    longitude := lon
    dbh := t.diameter_at_breast_height.getD 3
    tree_category := normalize_category (se.bind SpeciesRow.tree_category)
    x_3857 := lon * 20037508.342789244 / 180
    y_3857 := 6378137 * Real.log (Real.tan (Real.pi / 4 + radians (latitude_clamped lat) / 2))
    x_norm := xnorm lon
    y_norm := ynorm lat }

/-- LEFT JOIN trees t ON t.species = se.species: the matched enrichment
rows for a raw row (SQL equality is null-rejecting), or a single null
row when nothing matches. -/
def joinRows (se_table : List SpeciesRow) (t : RawTree) : List (Option SpeciesRow) :=
  let hits := se_table.filter (fun se => t.species ≠ none ∧ se.species = t.species)
  if hits.isEmpty then [none] else hits.map some

/-- The trees_fast rows produced by one raw row: rows with a null
latitude or longitude are filtered out by the WHERE clause, otherwise
one row per join match. -/
def rowsFor (se_table : List SpeciesRow) (t : RawTree) : List FastRow :=
  match t.latitude, t.longitude with
  | some lat, some lon => (joinRows se_table t).map (fun m => mkFastRow t m lat lon)
  | _, _ => []

/-- The trees_fast table of the build. -/
def trees_fast (raw : List RawTree) (se_table : List SpeciesRow) : List FastRow :=
  raw.flatMap (rowsFor se_table)

/-- The raw rows that survive the WHERE latitude IS NOT NULL AND
longitude IS NOT NULL filter. -/
def validPoints (raw : List RawTree) : List RawTree :=
  raw.filter (fun t => t.latitude.isSome ∧ t.longitude.isSome)

/-- floor(v / grid) * grid + grid / 2: the planar grid-cell centre
columns gx/gy of the aggregate caches. -/
def gridSnap (grid v : ℝ) : ℝ := (⌊v / grid⌋ : ℝ) * grid + grid / 2

/-- GROUP BY key of agg_z{z}_cache: (xtile, ytile, gx, gy). -/
def aggKey (z : ℕ) (grid : ℝ) (r : FastRow) : ℤ × ℤ × ℝ × ℝ :=
  (r.xtile z, r.ytile z, gridSnap grid r.x_3857, gridSnap grid r.y_3857)

/-- One row of an aggregate cache table. -/
structure AggRow where
  xtile : ℤ
  ytile : ℤ
  gx : ℝ
  gy : ℝ
  dbh : Option ℝ
  point_count : ℕ

/-- agg_z{z}_cache of the build: group trees_fast rows by
(xtile, ytile, gx, gy) and take COUNT(*) and AVG(dbh).  The dbh column
of trees_fast is never NULL (it is COALESCEd to 3), so SQL AVG over a
non-empty group is the plain arithmetic mean; the Option models AVG's
nullable result type. -/
def agg_cache (z : ℕ) (grid : ℝ) (rows : List FastRow) : List AggRow :=
  ((rows.map (aggKey z grid)).dedup).map (fun k =>
    let grp := rows.filter (fun r => aggKey z grid r = k)
    { xtile := k.1
      ytile := k.2.1
      gx := k.2.2.1
      gy := k.2.2.2
      dbh := if grp.isEmpty then none else some ((grp.map FastRow.dbh).sum / grp.length)
      point_count := grp.length })

/-- The files one successful build run writes. -/
structure BuildOutput where
  trees_parquet : List RawTree
  species_parquet : List SpeciesRow
  trees_fast_parquet : List FastRow
  agg_z13 : List AggRow
  agg_z14 : List AggRow

/-- Concrete raw row used by the aggregation scenarios: valid
coordinates (0, 0) and a missing magnitude. -/
def c3raw : RawTree :=
  { tree_id := 0
    species := none
    latitude := some 0
    longitude := some 0
    diameter_at_breast_height := none }

/-- The single trees_fast row the build produces from c3raw (no
enrichment match). -/
def c3fast : FastRow := mkFastRow c3raw none 0 0

/-- The single agg_z13 row the build produces from c3raw: count 1 and
mean 3 (the defaulted magnitude), not a null mean. -/
def c3row : AggRow :=
  { xtile := c3fast.xtile 13
    ytile := c3fast.ytile 13
    gx := gridSnap 64 c3fast.x_3857
    gy := gridSnap 64 c3fast.y_3857
    dbh := some 3
    point_count := 1 }

/-- Simulation relation between a zoom-locked run (a) and a stage-locked
run (b) over the same event stream: the zoom-locked served-set is
contained in the stage-locked one, every frozen-per-zoom range has been
served, and a zoom has been frozen exactly when some stage has frozen
that zoom. -/
def InvZS (a b : SimState) : Prop :=
  a.seen ⊆ b.seen ∧
  (∀ z t, a.frozen_zoom z = some t → t.key 1 ∈ a.seen) ∧
  (∀ z : ℤ, (a.frozen_zoom z).isSome ↔ ∃ s, (b.frozen_stage (s, z)).isSome)

/-- Simulation relation between a stage-locked run (a) and a per-frame
dynamic run (b): the stage-locked served-set is contained in the dynamic
one and every frozen-per-stage range has been served. -/
def InvSD (a b : SimState) : Prop :=
  a.seen ⊆ b.seen ∧
  (∀ q t, a.frozen_stage q = some t → t.key 1 ∈ a.seen)

/-- Bookkeeping invariant of one simulation run: the Counter support is
the set of zooms of served keys, each per-zoom key set is the served-set
restricted to that zoom, each per-zoom counter is the size of its key
set, and frozen ranges carry the zoom they are filed under. -/
def InvCount (st : SimState) : Prop :=
  st.zooms = st.seen.image BatchKey.z ∧
  (∀ z, st.keys_by_zoom z = st.seen.filter (fun k => k.z = z)) ∧
  (∀ z, st.count_by_zoom z = (st.keys_by_zoom z).card) ∧
  (∀ z t, st.frozen_zoom z = some t → t.z = z) ∧
  (∀ s z t, st.frozen_stage (s, z) = some t → t.z = z)

/-- build() of build_map_parquet_cache.py: the existence check on the
raw input file is the first statement and raises SystemExit before any
output is created; otherwise the species table defaults to empty when
its file is absent, and all output tables are written. -/
def build (raw_exists species_exists : Bool) (raw : List RawTree)
    (se : List SpeciesRow) : Except String BuildOutput :=
  if raw_exists = false then Except.error "Missing raw_data.json"
  else
    let se_table := if species_exists then se else []
    let tf := trees_fast raw se_table
    Except.ok
      { trees_parquet := raw
        species_parquet := se_table
        trees_fast_parquet := tf
        agg_z13 := agg_cache 13 64 tf
        agg_z14 := agg_cache 14 32 tf }

end

end SfTree

namespace SfTree

theorem runServe_eq_union (ks : List BatchKey) :
    ∀ seen : Finset BatchKey, runServe seen ks = seen ∪ ks.toFinset := by
  induction ks with
  | nil => intro seen; simp [runServe]
  | cons k ks ih =>
      intro seen
      by_cases hk : k ∈ seen
      · rw [runServe, serve, if_pos hk]
        rw [ih]
        ext x
        simp only [Finset.mem_union, List.toFinset_cons, Finset.mem_insert]
        constructor
        · rintro (hx | hx)
          · exact Or.inl hx
          · exact Or.inr (Or.inr hx)
        · rintro (hx | hx | hx)
          · exact Or.inl hx
          · exact Or.inl (hx ▸ hk)
          · exact Or.inr hx
      · rw [runServe, serve, if_neg hk]
        rw [ih]
        ext x
        simp only [Finset.mem_union, Finset.mem_insert, List.toFinset_cons]
        tauto

theorem emitCount_eq (ks : List BatchKey) :
    ∀ (seen : Finset BatchKey) (k : BatchKey),
      emitCount seen ks k = if k ∈ ks ∧ k ∉ seen then 1 else 0 := by
  induction ks with
  | nil => intro seen k; simp [emitCount]
  | cons k₀ ks ih =>
      intro seen k
      by_cases h₀ : k₀ ∈ seen
      · rw [show emitCount seen (k₀ :: ks) k =
            (if (serve seen k₀).2 = true ∧ k₀ = k then 1 else 0) +
              emitCount (serve seen k₀).1 ks k from rfl]
        simp only [serve, if_pos h₀, ih]
        by_cases hk : k = k₀
        · subst hk; simp [h₀]
        · simp [hk, fun h : k₀ = k => hk h.symm, List.mem_cons]
      · rw [show emitCount seen (k₀ :: ks) k =
            (if (serve seen k₀).2 = true ∧ k₀ = k then 1 else 0) +
              emitCount (serve seen k₀).1 ks k from rfl]
        simp only [serve, if_neg h₀, ih]
        by_cases hk : k = k₀
        · subst hk; simp [h₀, Finset.mem_insert]
        · have hk' : ¬k₀ = k := fun h => hk h.symm
          simp [hk, hk', List.mem_cons, Finset.mem_insert]

/-! ### State lemmas for the simulation -/

@[simp]
theorem serveKey_seen (st : SimState) (z : ℤ) (k : BatchKey) :
    (serveKey st z k).seen = insert k st.seen := by
  unfold serveKey
  split
  · exact (Finset.insert_eq_self.mpr (by assumption)).symm
  · rfl

@[simp]
theorem serveKey_frozen_zoom (st : SimState) (z : ℤ) (k : BatchKey) :
    (serveKey st z k).frozen_zoom = st.frozen_zoom := by
  unfold serveKey; split <;> rfl

@[simp]
theorem serveKey_frozen_stage (st : SimState) (z : ℤ) (k : BatchKey) :
    (serveKey st z k).frozen_stage = st.frozen_stage := by
  unfold serveKey; split <;> rfl

theorem foldl_rel {α σ τ : Type} (P : σ → τ → Prop) (fa : σ → α → σ)
    (fb : τ → α → τ) (hstep : ∀ x a b, P a b → P (fa a x) (fb b x)) :
    ∀ (l : List α) (a : σ) (b : τ), P a b → P (l.foldl fa a) (l.foldl fb b) := by
  intro l
  induction l with
  | nil => intro a b hab; exact hab
  | cons x xs ih => intro a b hab; exact ih _ _ (hstep x a b hab)

theorem foldl_inv {α σ : Type} (P : σ → Prop) (f : σ → α → σ)
    (hstep : ∀ x a, P a → P (f a x)) :
    ∀ (l : List α) (a : σ), P a → P (l.foldl f a) := by
  intro l
  induction l with
  | nil => intro a ha; exact ha
  | cons x xs ih => intro a ha; exact ih _ (hstep x a ha)

@[simp]
theorem withFZ_seen (st : SimState) (g : ℤ → Option TileRange) :
    ({ st with frozen_zoom := g } : SimState).seen = st.seen := rfl

@[simp]
theorem withFZ_frozen_zoom (st : SimState) (g : ℤ → Option TileRange) :
    ({ st with frozen_zoom := g } : SimState).frozen_zoom = g := rfl

@[simp]
theorem withFZ_frozen_stage (st : SimState) (g : ℤ → Option TileRange) :
    ({ st with frozen_zoom := g } : SimState).frozen_stage = st.frozen_stage := rfl

@[simp]
theorem withFS_seen (st : SimState) (g : ℕ × ℤ → Option TileRange) :
    ({ st with frozen_stage := g } : SimState).seen = st.seen := rfl

@[simp]
theorem withFS_frozen_zoom (st : SimState) (g : ℕ × ℤ → Option TileRange) :
    ({ st with frozen_stage := g } : SimState).frozen_zoom = st.frozen_zoom := rfl

@[simp]
theorem withFS_frozen_stage (st : SimState) (g : ℕ × ℤ → Option TileRange) :
    ({ st with frozen_stage := g } : SimState).frozen_stage = g := rfl

theorem update_stage_other {g : ℕ × ℤ → Option TileRange} {s₀ : ℕ} {z z' : ℤ}
    (hz' : z' ≠ z) (v : Option TileRange) (s : ℕ) :
    Function.update g (s₀, z) v (s, z') = g (s, z') :=
  Function.update_noteq (by simp [hz']) _ _

theorem stepFrame_invZS (w h : ℤ) (f : Frame) (a b : SimState)
    (hab : InvZS a b) :
    InvZS (stepFrame zoomFlags w h a f) (stepFrame stageFlags w h b f) := by
  obtain ⟨hsub, hfz, hdom⟩ := hab
  unfold stepFrame
  by_cases hz : pyRound f.zoom < 15
  · simp only [hz, if_true]
    exact ⟨hsub, hfz, hdom⟩
  · simp only [hz, if_false, zoomFlags, stageFlags, Bool.false_eq_true,
      if_true, if_false]
    set z := pyRound f.zoom with hzdef
    set tr0 := deriveRange w h f.zoom f.lng f.lat z with htr0
    cases hfza : a.frozen_zoom z with
    | some t =>
        have htk : t.key 1 ∈ a.seen := hfz _ _ hfza
        have hseenA : (serveKey a z (t.key 1)).seen = a.seen := by
          rw [serveKey_seen]; exact Finset.insert_eq_self.mpr htk
        cases hfsb : b.frozen_stage (f.stage_idx, z) with
        | some u =>
            refine ⟨?_, ?_, ?_⟩
            · rw [hseenA, serveKey_seen]
              exact hsub.trans (Finset.subset_insert _ _)
            · intro z' t' ht'
              rw [serveKey_frozen_zoom] at ht'
              rw [hseenA]; exact hfz _ _ ht'
            · intro z'
              rw [serveKey_frozen_zoom, serveKey_frozen_stage]
              exact hdom z'
        | none =>
            refine ⟨?_, ?_, ?_⟩
            · rw [hseenA, serveKey_seen, withFS_seen]
              exact hsub.trans (Finset.subset_insert _ _)
            · intro z' t' ht'
              rw [serveKey_frozen_zoom] at ht'
              rw [hseenA]; exact hfz _ _ ht'
            · intro z'
              rw [serveKey_frozen_zoom, serveKey_frozen_stage, withFS_frozen_stage]
              by_cases hz' : z' = z
              · subst hz'
                constructor
                · intro _
                  exact ⟨f.stage_idx, by rw [Function.update_same]; rfl⟩
                · intro _
                  rw [hfza]; rfl
              · simp only [update_stage_other hz']
                exact hdom z'
    | none =>
        have hbnone : b.frozen_stage (f.stage_idx, z) = none := by
          by_contra hne
          have hs : (a.frozen_zoom z).isSome := by
            rw [hdom z]
            exact ⟨f.stage_idx, Option.isSome_iff_ne_none.mpr hne⟩
          rw [hfza] at hs
          simp at hs
        rw [hbnone]
        refine ⟨?_, ?_, ?_⟩
        · rw [serveKey_seen, serveKey_seen, withFZ_seen, withFS_seen]
          exact Finset.insert_subset_insert _ hsub
        · intro z' t' ht'
          rw [serveKey_frozen_zoom, withFZ_frozen_zoom] at ht'
          rw [serveKey_seen, withFZ_seen]
          by_cases hz' : z' = z
          · subst hz'
            rw [Function.update_same] at ht'
            cases ht'
            exact Finset.mem_insert_self _ _
          · rw [Function.update_noteq hz'] at ht'
            exact Finset.mem_insert_of_mem (hfz _ _ ht')
        · intro z'
          rw [serveKey_frozen_zoom, serveKey_frozen_stage, withFZ_frozen_zoom,
            withFS_frozen_stage]
          by_cases hz' : z' = z
          · subst hz'
            rw [Function.update_same]
            constructor
            · intro _
              exact ⟨f.stage_idx, by rw [Function.update_same]; rfl⟩
            · intro _; rfl
          · rw [Function.update_noteq hz']
            simp only [update_stage_other hz']
            exact hdom z'


theorem stepPrefetch_invZS (w h : ℤ) (p : Frame) (a b : SimState)
    (hab : InvZS a b) :
    InvZS (stepPrefetch zoomFlags w h a p) (stepPrefetch stageFlags w h b p) := by
  obtain ⟨hsub, hfz, hdom⟩ := hab
  unfold stepPrefetch
  by_cases hz : pyRound p.zoom < 15
  · simp only [hz, if_true]
    exact ⟨hsub, hfz, hdom⟩
  · simp only [hz, if_false, zoomFlags, stageFlags, Bool.false_eq_true,
      if_true, if_false]
    set z := pyRound p.zoom with hzdef
    set tr0 := deriveRange w h p.zoom p.lng p.lat z with htr0
    cases hfza : a.frozen_zoom z with
    | some t =>
        have htk : t.key 1 ∈ a.seen := hfz _ _ hfza
        refine ⟨?_, ?_, ?_⟩
        · rw [serveKey_seen, serveKey_seen]
          simp only [Option.getD_some]
          rw [Finset.insert_eq_self.mpr htk]
          exact hsub.trans (Finset.subset_insert _ _)
        · intro z' t' ht'
          rw [serveKey_frozen_zoom] at ht'
          rw [serveKey_seen]
          exact Finset.mem_insert_of_mem (hfz _ _ ht')
        · intro z'
          rw [serveKey_frozen_zoom, serveKey_frozen_stage]
          exact hdom z'
    | none =>
        have hbnone : b.frozen_stage (p.stage_idx, z) = none := by
          by_contra hne
          have hs : (a.frozen_zoom z).isSome := by
            rw [hdom z]
            exact ⟨p.stage_idx, Option.isSome_iff_ne_none.mpr hne⟩
          rw [hfza] at hs
          simp at hs
        rw [hbnone]
        refine ⟨?_, ?_, ?_⟩
        · rw [serveKey_seen, serveKey_seen]
          simp only [Option.getD_none]
          exact Finset.insert_subset_insert _ hsub
        · intro z' t' ht'
          rw [serveKey_frozen_zoom] at ht'
          rw [serveKey_seen]
          exact Finset.mem_insert_of_mem (hfz _ _ ht')
        · intro z'
          rw [serveKey_frozen_zoom, serveKey_frozen_stage]
          exact hdom z'

theorem stepFrame_invSD (w h : ℤ) (f : Frame) (a b : SimState)
    (hab : InvSD a b) :
    InvSD (stepFrame stageFlags w h a f) (stepFrame dynFlags w h b f) := by
  obtain ⟨hsub, hfs⟩ := hab
  unfold stepFrame
  by_cases hz : pyRound f.zoom < 15
  · simp only [hz, if_true]
    exact ⟨hsub, hfs⟩
  · simp only [hz, if_false, stageFlags, dynFlags, Bool.false_eq_true,
      if_true, if_false]
    set z := pyRound f.zoom with hzdef
    set tr0 := deriveRange w h f.zoom f.lng f.lat z with htr0
    cases hfsa : a.frozen_stage (f.stage_idx, z) with
    | some t =>
        have htk : t.key 1 ∈ a.seen := hfs _ _ hfsa
        refine ⟨?_, ?_⟩
        · rw [serveKey_seen, serveKey_seen]
          rw [Finset.insert_eq_self.mpr htk]
          exact hsub.trans (Finset.subset_insert _ _)
        · intro q t' ht'
          rw [serveKey_frozen_stage] at ht'
          rw [serveKey_seen, Finset.insert_eq_self.mpr htk]
          exact hfs _ _ ht'
    | none =>
        refine ⟨?_, ?_⟩
        · rw [serveKey_seen, serveKey_seen, withFS_seen]
          exact Finset.insert_subset_insert _ hsub
        · intro q t' ht'
          rw [serveKey_frozen_stage, withFS_frozen_stage] at ht'
          rw [serveKey_seen, withFS_seen]
          by_cases hq : q = (f.stage_idx, z)
          · subst hq
            rw [Function.update_same] at ht'
            cases ht'
            exact Finset.mem_insert_self _ _
          · rw [Function.update_noteq hq] at ht'
            exact Finset.mem_insert_of_mem (hfs _ _ ht')

theorem stepPrefetch_invSD (w h : ℤ) (p : Frame) (a b : SimState)
    (hab : InvSD a b) :
    InvSD (stepPrefetch stageFlags w h a p) (stepPrefetch dynFlags w h b p) := by
  obtain ⟨hsub, hfs⟩ := hab
  unfold stepPrefetch
  by_cases hz : pyRound p.zoom < 15
  · simp only [hz, if_true]
    exact ⟨hsub, hfs⟩
  · simp only [hz, if_false, stageFlags, dynFlags, Bool.false_eq_true,
      if_true, if_false]
    set z := pyRound p.zoom with hzdef
    set tr0 := deriveRange w h p.zoom p.lng p.lat z with htr0
    cases hfsa : a.frozen_stage (p.stage_idx, z) with
    | some t =>
        have htk : t.key 1 ∈ a.seen := hfs _ _ hfsa
        refine ⟨?_, ?_⟩
        · rw [serveKey_seen, serveKey_seen]
          simp only [Option.getD_some]
          rw [Finset.insert_eq_self.mpr htk]
          exact hsub.trans (Finset.subset_insert _ _)
        · intro q t' ht'
          rw [serveKey_frozen_stage] at ht'
          rw [serveKey_seen]
          exact Finset.mem_insert_of_mem (hfs _ _ ht')
    | none =>
        refine ⟨?_, ?_⟩
        · rw [serveKey_seen, serveKey_seen]
          simp only [Option.getD_none]
          exact Finset.insert_subset_insert _ hsub
        · intro q t' ht'
          rw [serveKey_frozen_stage] at ht'
          rw [serveKey_seen]
          exact Finset.mem_insert_of_mem (hfs _ _ ht')

theorem serveKey_invCount (st : SimState) (z : ℤ) (k : BatchKey)
    (hk : k.z = z) (h : InvCount st) : InvCount (serveKey st z k) := by
  obtain ⟨h1, h2, h3, h4, h5⟩ := h
  by_cases hmem : k ∈ st.seen
  · unfold serveKey
    rw [if_pos hmem]
    exact ⟨h1, h2, h3, h4, h5⟩
  · unfold serveKey
    rw [if_neg hmem]
    refine ⟨?_, ?_, ?_, h4, h5⟩
    · show insert z st.zooms = (insert k st.seen).image BatchKey.z
      rw [Finset.image_insert, h1, hk]
    · intro z'
      show Function.update st.keys_by_zoom z (insert k (st.keys_by_zoom z)) z'
          = (insert k st.seen).filter (fun x => x.z = z')
      by_cases hz' : z' = z
      · subst hz'
        rw [Function.update_same, h2, Finset.filter_insert, if_pos hk]
      · rw [Function.update_noteq hz', h2, Finset.filter_insert,
          if_neg (show ¬k.z = z' by rw [hk]; exact fun hh => hz' hh.symm)]
    · intro z'
      show Function.update st.count_by_zoom z (st.count_by_zoom z + 1) z'
          = (Function.update st.keys_by_zoom z (insert k (st.keys_by_zoom z)) z').card
      by_cases hz' : z' = z
      · subst hz'
        rw [Function.update_same, Function.update_same, h3]
        have hknot : k ∉ st.keys_by_zoom z' := by
          rw [h2]
          exact fun hmem' => hmem (Finset.mem_of_mem_filter _ hmem')
        rw [Finset.card_insert_of_not_mem hknot]
      · rw [Function.update_noteq hz', Function.update_noteq hz', h3]

theorem stepFrame_invCount (fl : SimFlags) (w h : ℤ) (f : Frame)
    (st : SimState) (hst : InvCount st) : InvCount (stepFrame fl w h st f) := by
  unfold stepFrame
  by_cases hz : pyRound f.zoom < 15
  · rw [if_pos hz]; exact hst
  · rw [if_neg hz]
    set z := pyRound f.zoom with hzdef
    set tr0 := deriveRange w h f.zoom f.lng f.lat z with htr0
    have htr0z : tr0.z = z := rfl
    obtain ⟨h1, h2, h3, h4, h5⟩ := hst
    by_cases hpz : fl.freeze_visible_range_per_zoom = true
    · rw [if_pos hpz]
      cases hfz : st.frozen_zoom z with
      | some t =>
          exact serveKey_invCount _ _ _ (h4 _ _ hfz) ⟨h1, h2, h3, h4, h5⟩
      | none =>
          refine serveKey_invCount _ _ _ rfl ⟨h1, h2, h3, ?_, h5⟩
          intro z' t' ht'
          rw [withFZ_frozen_zoom] at ht'
          by_cases hz' : z' = z
          · subst hz'
            rw [Function.update_same] at ht'
            cases ht'
            exact htr0z
          · rw [Function.update_noteq hz'] at ht'
            exact h4 _ _ ht'
    · rw [if_neg hpz]
      by_cases hps : fl.freeze_visible_range_per_stage = true
      · rw [if_pos hps]
        cases hfs : st.frozen_stage (f.stage_idx, z) with
        | some t =>
            exact serveKey_invCount _ _ _ (h5 _ _ _ hfs) ⟨h1, h2, h3, h4, h5⟩
        | none =>
            refine serveKey_invCount _ _ _ rfl ⟨h1, h2, h3, h4, ?_⟩
            intro s' z' t' ht'
            rw [withFS_frozen_stage] at ht'
            by_cases hq : ((s', z') : ℕ × ℤ) = (f.stage_idx, z)
            · rw [hq, Function.update_same] at ht'
              cases ht'
              have : z' = z := (Prod.mk.injEq _ _ _ _ ▸ hq).2
              rw [this]
              exact htr0z
            · rw [Function.update_noteq hq] at ht'
              exact h5 _ _ _ ht'
      · rw [if_neg hps]
        exact serveKey_invCount _ _ _ rfl ⟨h1, h2, h3, h4, h5⟩

theorem stepPrefetch_invCount (fl : SimFlags) (w h : ℤ) (p : Frame)
    (st : SimState) (hst : InvCount st) : InvCount (stepPrefetch fl w h st p) := by
  unfold stepPrefetch
  by_cases hz : pyRound p.zoom < 15
  · rw [if_pos hz]; exact hst
  · rw [if_neg hz]
    set z := pyRound p.zoom with hzdef
    set tr0 := deriveRange w h p.zoom p.lng p.lat z with htr0
    have htr0z : tr0.z = z := rfl
    obtain ⟨h1, h2, h3, h4, h5⟩ := hst
    refine serveKey_invCount _ _ _ ?_ ⟨h1, h2, h3, h4, h5⟩
    by_cases hpz : fl.freeze_visible_range_per_zoom = true
    · rw [if_pos hpz]
      cases hfz : st.frozen_zoom z with
      | some t => simp only [Option.getD_some]; exact h4 _ _ hfz
      | none => simp only [Option.getD_none]; exact htr0z
    · rw [if_neg hpz]
      by_cases hps : fl.freeze_visible_range_per_stage = true
      · rw [if_pos hps]
        cases hfs : st.frozen_stage (p.stage_idx, z) with
        | some t => simp only [Option.getD_some]; exact h5 _ _ _ hfs
        | none => simp only [Option.getD_none]; exact htr0z
      · rw [if_neg hps]
        exact htr0z

theorem initState_invCount : InvCount initState := by
  refine ⟨?_, ?_, ?_, ?_, ?_⟩ <;> simp [initState, InvCount]

theorem simulate_invCount (fl : SimFlags) (w h : ℤ)
    (frames prefetch : List Frame) :
    InvCount (simulate fl w h frames prefetch) := by
  unfold simulate
  apply foldl_inv InvCount _ (fun p st hst => stepPrefetch_invCount fl w h p st hst)
  apply foldl_inv InvCount _ (fun f st hst => stepFrame_invCount fl w h f st hst)
  exact initState_invCount

theorem total_eq_card (st : SimState) (h : InvCount st) :
    st.total = st.seen.card := by
  obtain ⟨h1, h2, h3, _, _⟩ := h
  unfold SimState.total
  rw [h1]
  rw [Finset.sum_congr rfl (fun z _ => by rw [h3, h2])]
  exact (Finset.card_eq_sum_card_image BatchKey.z st.seen).symm

theorem simulate_seen_zoom_stage (w h : ℤ) (frames prefetch : List Frame) :
    (simulate zoomFlags w h frames prefetch).seen
      ⊆ (simulate stageFlags w h frames prefetch).seen := by
  have base : InvZS initState initState := by
    refine ⟨Finset.Subset.refl _, ?_, ?_⟩
    · intro z t ht
      simp [initState] at ht
    · intro z
      simp [initState]
  have step1 := foldl_rel InvZS _ _
    (fun x a b hab => stepFrame_invZS w h x a b hab) frames _ _ base
  have step2 := foldl_rel InvZS _ _
    (fun x a b hab => stepPrefetch_invZS w h x a b hab) prefetch _ _ step1
  exact step2.1

theorem simulate_seen_stage_dyn (w h : ℤ) (frames prefetch : List Frame) :
    (simulate stageFlags w h frames prefetch).seen
      ⊆ (simulate dynFlags w h frames prefetch).seen := by
  have base : InvSD initState initState := by
    refine ⟨Finset.Subset.refl _, ?_⟩
    intro q t ht
    simp [initState] at ht
  have step1 := foldl_rel InvSD _ _
    (fun x a b hab => stepFrame_invSD w h x a b hab) frames _ _ base
  have step2 := foldl_rel InvSD _ _
    (fun x a b hab => stepPrefetch_invSD w h x a b hab) prefetch _ _ step1
  exact step2.1

/-! ### Claim theorems for the coalescer -/

/-- C1: within one revision, any number of viewport events deriving the
same cache key produce exactly one emitted query for that key — the
first occurrence marks it served, every later occurrence is discarded —
and the final served-set is exactly the set of derived keys. -/
theorem C1_coalescer_dedup (evs : List TileRange) (r : ℤ) (k : BatchKey) :
    emitCount ∅ (evs.map (fun tr => tr.key r)) k
      = (if k ∈ evs.map (fun tr => tr.key r) then 1 else 0) ∧
    runServe ∅ (evs.map (fun tr => tr.key r))
      = (evs.map (fun tr => tr.key r)).toFinset := by
  constructor
  · rw [emitCount_eq]
    simp
  · rw [runServe_eq_union]
    simp

/-- C2: for every viewport size and every camera trajectory (frame
stream plus stage-boundary prefetch stream), the total query count of
the zoom-locked policy is at most that of the stage-locked policy,
which is at most that of the per-frame dynamic policy. -/
theorem C2_policy_query_count_ordering (w h : ℤ)
    (frames prefetch : List Frame) :
    (simulate zoomFlags w h frames prefetch).total
        ≤ (simulate stageFlags w h frames prefetch).total ∧
    (simulate stageFlags w h frames prefetch).total
        ≤ (simulate dynFlags w h frames prefetch).total := by
  constructor
  · rw [total_eq_card _ (simulate_invCount zoomFlags w h frames prefetch),
      total_eq_card _ (simulate_invCount stageFlags w h frames prefetch)]
    exact Finset.card_le_card (simulate_seen_zoom_stage w h frames prefetch)
  · rw [total_eq_card _ (simulate_invCount stageFlags w h frames prefetch),
      total_eq_card _ (simulate_invCount dynFlags w h frames prefetch)]
    exact Finset.card_le_card (simulate_seen_stage_dyn w h frames prefetch)

/-- C7: a key served under one revision is treated as unserved after the
revision changes — the same tile range under a different revision
derives a key not in the served-set, so replaying that viewport state
emits exactly one new query. -/
theorem C7_revision_bump (evs : List TileRange) (r r' : ℤ) (tr : TileRange)
    (hrr : r ≠ r') :
    tr.key r' ∉ runServe ∅ (evs.map (fun x => x.key r)) ∧
    emitCount (runServe ∅ (evs.map (fun x => x.key r)))
      [tr.key r', tr.key r'] (tr.key r') = 1 := by
  have hmem : tr.key r' ∉ runServe ∅ (evs.map (fun x => x.key r)) := by
    rw [runServe_eq_union]
    simp only [Finset.empty_union, List.mem_toFinset, List.mem_map]
    rintro ⟨x, -, hx⟩
    exact hrr (congrArg BatchKey.revision hx)
  refine ⟨hmem, ?_⟩
  rw [emitCount_eq]
  simp [hmem]

/-- Witness for C7 at a concrete served stream and revisions 1 ≠ 2. -/
theorem C7_revision_bump_witness :
    (1 : ℤ) ≠ 2 ∧
    ((TileRange.mk 15 0 0 0 0).key 2
        ∉ runServe ∅ (([⟨15, 0, 0, 0, 0⟩] : List TileRange).map (fun x => x.key 1)) ∧
      emitCount (runServe ∅ (([⟨15, 0, 0, 0, 0⟩] : List TileRange).map (fun x => x.key 1)))
        [(TileRange.mk 15 0 0 0 0).key 2, (TileRange.mk 15 0 0 0 0).key 2]
        ((TileRange.mk 15 0 0 0 0).key 2) = 1) :=
  ⟨by decide, C7_revision_bump [⟨15, 0, 0, 0, 0⟩] 1 2 ⟨15, 0, 0, 0, 0⟩ (by decide)⟩

/-- C10: in every simulation run (any policy, any trajectory, prefetch
pass included) the reported total equals the size of the served-set,
and the per-zoom counters partition it: each counter equals the number
of served keys carrying that zoom, and each per-zoom key set is the
served-set restricted to that zoom (so every key is counted once, in
exactly one bucket). -/
theorem C10_count_partition (fl : SimFlags) (w h : ℤ)
    (frames prefetch : List Frame) :
    (simulate fl w h frames prefetch).total
        = (simulate fl w h frames prefetch).seen.card ∧
    (∀ z, (simulate fl w h frames prefetch).count_by_zoom z
        = ((simulate fl w h frames prefetch).seen.filter (fun k => k.z = z)).card) ∧
    (∀ z, (simulate fl w h frames prefetch).keys_by_zoom z
        = (simulate fl w h frames prefetch).seen.filter (fun k => k.z = z)) := by
  have h := simulate_invCount fl w h frames prefetch
  obtain ⟨-, h2, h3, -, -⟩ := h
  exact ⟨total_eq_card _ (simulate_invCount fl w h frames prefetch),
    fun z => by rw [h3, h2], h2⟩

/-! ### C8: degenerate events -/

theorem pyRound_intCast (n : ℤ) : pyRound (n : ℝ) = n := by
  unfold pyRound
  norm_num [Int.floor_intCast]

theorem serveKey_initState_total (z : ℤ) (k : BatchKey) :
    (serveKey initState z k).total = 1 := by
  unfold serveKey
  rw [if_neg (by simp [initState])]
  unfold SimState.total
  simp [initState, Function.update_same]

/-- C8 counterexample: an event with a zero-width, zero-height viewport
is not rejected — the run emits one query (the claim requires zero). -/
theorem C8_counterexample :
    (simulate dynFlags 0 0 [⟨15, 0, 0, 0⟩] []).total = 1 := by
  have h15 : pyRound ((15 : ℝ)) = 15 := by
    have := pyRound_intCast 15
    norm_num at this
    exact this
  simp only [simulate, List.foldl_cons, List.foldl_nil]
  unfold stepFrame
  simp only [h15]
  rw [if_neg (by norm_num : ¬(15 : ℤ) < 15)]
  simp only [dynFlags, Bool.false_eq_true, if_false]
  exact serveKey_initState_total _ _

/-- C8 (amended): only events whose rounded zoom falls below the tracked
minimum of 15 — in particular every non-positive zoom — are rejected,
leaving the state (and so the served-set) untouched and emitting no
query; degenerate (non-positive) viewport sizes are not rejected. -/
theorem C8_amended_reject_low_zoom (fl : SimFlags) (w h : ℤ)
    (st : SimState) (f : Frame) (hf : pyRound f.zoom ≤ 0) :
    stepFrame fl w h st f = st := by
  unfold stepFrame
  rw [if_pos (by omega)]

/-- Witness for the amended C8 at the zoom-zero event. -/
theorem C8_amended_reject_low_zoom_witness :
    pyRound ((0 : ℝ)) ≤ 0 ∧
    stepFrame dynFlags 0 0 initState ⟨0, 0, 0, 0⟩ = initState := by
  have h0 : pyRound ((0 : ℝ)) = 0 := by
    have := pyRound_intCast 0
    norm_num at this
    exact this
  exact ⟨le_of_eq h0,
    C8_amended_reject_low_zoom dynFlags 0 0 initState ⟨0, 0, 0, 0⟩ (le_of_eq h0)⟩

/-! ### C9: missing raw input aborts the build -/

/-- C9: when the required raw input file is absent, the build fails with
a hard error before anything is computed or written — the result carries
no output tables at all. -/
theorem C9_missing_input_aborts (sp : Bool) (raw : List RawTree)
    (se : List SpeciesRow) :
    build false sp raw se = Except.error "Missing raw_data.json" ∧
    (build false sp raw se).toOption = none := by
  constructor <;> simp [build, Except.toOption]

/-! ### Aggregation lemmas (C6, C3) -/

theorem sum_filter_lengths {α β : Type} [DecidableEq β] (g : α → β)
    (rows : List α) :
    (((rows.map g).dedup).map
        (fun k => (rows.filter (fun r => g r = k)).length)).sum
      = rows.length := by
  classical
  rw [← List.sum_toFinset _ (List.nodup_dedup (rows.map g))]
  rw [show (rows.map g).dedup.toFinset = (rows.map g).toFinset by
    ext x; simp [List.mem_dedup]]
  have hcount : ∀ k, (rows.filter (fun r => g r = k)).length
      = (rows.map g).count k := by
    intro k
    rw [← List.countP_eq_length_filter, List.count, List.countP_map]
    rfl
  rw [Finset.sum_congr rfl (fun k _ => hcount k),
    List.sum_toFinset_count_eq_length, List.length_map]

theorem agg_count_sum (z : ℕ) (grid : ℝ) (rows : List FastRow) :
    ((agg_cache z grid rows).map AggRow.point_count).sum = rows.length := by
  unfold agg_cache
  rw [List.map_map]
  exact sum_filter_lengths (aggKey z grid) rows

theorem rowsFor_nil_of_invalid (se_table : List SpeciesRow) (t : RawTree)
    (hv : ¬(t.latitude.isSome ∧ t.longitude.isSome)) :
    rowsFor se_table t = [] := by
  unfold rowsFor
  cases hlat : t.latitude with
  | none => rfl
  | some lat =>
      cases hlon : t.longitude with
      | none => rfl
      | some lon =>
          exact absurd ⟨by rw [hlat]; rfl, by rw [hlon]; rfl⟩ hv

theorem hits_length_le_one (se_table : List SpeciesRow) (t : RawTree)
    (hse : se_table.Pairwise (fun a b => a.species = none ∨ a.species ≠ b.species)) :
    (se_table.filter
        (fun se => t.species ≠ none ∧ se.species = t.species)).length ≤ 1 := by
  induction se_table with
  | nil => simp
  | cons a rest ih =>
      obtain ⟨ha, hrest⟩ := List.pairwise_cons.mp hse
      rw [List.filter_cons]
      by_cases hpa : t.species ≠ none ∧ a.species = t.species
      · rw [if_pos (by simpa using hpa)]
        have hempty : rest.filter
            (fun se => t.species ≠ none ∧ se.species = t.species) = [] := by
          rw [List.filter_eq_nil_iff]
          intro b hb
          simp only [decide_eq_true_eq, not_and]
          intro hts hbs
          rcases ha b hb with h1 | h1
          · exact hts (by rw [← hpa.2]; exact h1)
          · exact h1 (hpa.2.trans hbs.symm)
        rw [hempty]
        simp
      · rw [if_neg (by simpa using hpa)]
        exact ih hrest

theorem rowsFor_length_of_valid (se_table : List SpeciesRow) (t : RawTree)
    (hse : se_table.Pairwise (fun a b => a.species = none ∨ a.species ≠ b.species))
    (hv : t.latitude.isSome ∧ t.longitude.isSome) :
    (rowsFor se_table t).length = 1 := by
  obtain ⟨lat, hlat⟩ := Option.isSome_iff_exists.mp hv.1
  obtain ⟨lon, hlon⟩ := Option.isSome_iff_exists.mp hv.2
  unfold rowsFor
  rw [hlat, hlon]
  unfold joinRows
  by_cases hemp : (se_table.filter
      (fun se => t.species ≠ none ∧ se.species = t.species)).isEmpty
  · rw [if_pos hemp]
    rfl
  · rw [if_neg hemp]
    rw [List.length_map, List.length_map]
    have hle := hits_length_le_one se_table t hse
    have hne : (se_table.filter
        (fun se => t.species ≠ none ∧ se.species = t.species)).length ≠ 0 := by
      intro hzero
      exact hemp (by rwa [List.isEmpty_iff, ← List.length_eq_zero])
    omega

theorem trees_fast_length (raw : List RawTree) (se : List SpeciesRow)
    (hse : se.Pairwise (fun a b => a.species = none ∨ a.species ≠ b.species)) :
    (trees_fast raw se).length = (validPoints raw).length := by
  unfold trees_fast validPoints
  induction raw with
  | nil => rfl
  | cons t rest ih =>
      rw [List.flatMap_cons, List.length_append, ih, List.filter_cons]
      by_cases hv : t.latitude.isSome ∧ t.longitude.isSome
      · rw [if_pos (by simpa using hv), rowsFor_length_of_valid se t hse hv]
        simp only [List.length_cons]
        omega
      · rw [if_neg (by simpa using hv), rowsFor_nil_of_invalid se t hv]
        simp

/-- C6: for every aggregate zoom level, the counts of the aggregate
rows sum to the number of raw input rows with non-null coordinates
(assuming the enrichment table has at most one row per species value,
which the enrichment pipeline guarantees by processing distinct species
and replacing re-processed rows). -/
theorem C6_aggregate_conservation (z : ℕ) (grid : ℝ) (raw : List RawTree)
    (se : List SpeciesRow)
    (hse : se.Pairwise (fun a b => a.species = none ∨ a.species ≠ b.species)) :
    ((agg_cache z grid (trees_fast raw se)).map AggRow.point_count).sum
      = (validPoints raw).length := by
  rw [agg_count_sum, trees_fast_length raw se hse]

/-- Witness for C6 at the one-valid-point scenario. -/
theorem C6_aggregate_conservation_witness :
    (([] : List SpeciesRow).Pairwise
        (fun a b => a.species = none ∨ a.species ≠ b.species)) ∧
    ((agg_cache 13 64 (trees_fast [c3raw] [])).map AggRow.point_count).sum
      = (validPoints [c3raw]).length :=
  ⟨List.Pairwise.nil, C6_aggregate_conservation 13 64 [c3raw] [] List.Pairwise.nil⟩

/-! ### C3: the per-cell mean and missing magnitudes -/

theorem c3_trees_fast : trees_fast [c3raw] [] = [c3fast] := rfl

theorem c3_agg : agg_cache 13 64 [c3fast] = [c3row] := by
  unfold agg_cache
  rw [show [c3fast].map (aggKey 13 64) = [aggKey 13 64 c3fast] from rfl,
    List.dedup_cons_of_not_mem (List.not_mem_nil _), List.dedup_nil]
  rw [show ∀ f : ℤ × ℤ × ℝ × ℝ → AggRow,
      [aggKey 13 64 c3fast].map f = [f (aggKey 13 64 c3fast)] from fun _ => rfl]
  have hfilter : [c3fast].filter
      (fun r => aggKey 13 64 r = aggKey 13 64 c3fast) = [c3fast] := by
    rw [List.filter_cons, if_pos (decide_eq_true rfl), List.filter_nil]
  simp only [hfilter]
  congr 1
  simp only [c3row, AggRow.mk.injEq]
  refine ⟨rfl, rfl, rfl, rfl, ?_, rfl⟩
  rw [if_neg (by simp)]
  have hdbh : c3fast.dbh = 3 := rfl
  simp [hdbh]

/-- C3 counterexample: a build over a single point with valid
coordinates and a missing (null) magnitude produces one aggregate row
with count 1 and mean 3 — the missing magnitude is defaulted to 3
before aggregation, not excluded, so the mean is not null. -/
theorem C3_counterexample :
    (agg_cache 13 64 (trees_fast [c3raw] [])).map
        (fun r => (r.point_count, r.dbh)) = [(1, some 3)] := by
  rw [c3_trees_fast, c3_agg]
  simp [c3row]

theorem mem_trees_fast_dbh (raw : List RawTree) (se : List SpeciesRow)
    (x : FastRow) (hx : x ∈ trees_fast raw se) :
    ∃ t ∈ raw, x.dbh = t.diameter_at_breast_height.getD 3 := by
  unfold trees_fast at hx
  obtain ⟨t, ht, hx⟩ := List.mem_flatMap.mp hx
  refine ⟨t, ht, ?_⟩
  unfold rowsFor at hx
  cases hlat : t.latitude with
  | none => rw [hlat] at hx; cases hx
  | some lat =>
      cases hlon : t.longitude with
      | none => rw [hlat, hlon] at hx; cases hx
      | some lon =>
          rw [hlat, hlon] at hx
          obtain ⟨m, -, hm⟩ := List.mem_map.mp hx
          rw [← hm]
          rfl

/-- C3 (amended): the per-cell mean produced by the Aggregation Builder
is the unweighted arithmetic mean over all points of the cell of the
magnitude with a missing (null) raw magnitude replaced by the default 3
at feature-build time; the mean is never null and the count includes
every point of the cell. -/
theorem C3_amended_mean_with_default (z : ℕ) (grid : ℝ) (raw : List RawTree)
    (se : List SpeciesRow) (r : AggRow)
    (hr : r ∈ agg_cache z grid (trees_fast raw se)) :
    (trees_fast raw se).filter
        (fun x => aggKey z grid x = (r.xtile, r.ytile, r.gx, r.gy)) ≠ [] ∧
    r.point_count = ((trees_fast raw se).filter
        (fun x => aggKey z grid x = (r.xtile, r.ytile, r.gx, r.gy))).length ∧
    r.dbh = some ((((trees_fast raw se).filter
        (fun x => aggKey z grid x = (r.xtile, r.ytile, r.gx, r.gy))).map
          FastRow.dbh).sum /
      (((trees_fast raw se).filter
        (fun x => aggKey z grid x = (r.xtile, r.ytile, r.gx, r.gy))).length)) ∧
    ∀ x ∈ (trees_fast raw se).filter
        (fun x => aggKey z grid x = (r.xtile, r.ytile, r.gx, r.gy)),
      ∃ t ∈ raw, x.dbh = t.diameter_at_breast_height.getD 3 := by
  unfold agg_cache at hr
  obtain ⟨k, hk, hr⟩ := List.mem_map.mp hr
  have hkey : (r.xtile, r.ytile, r.gx, r.gy) = k := by
    rw [← hr]
  rw [hkey]
  have hkmem : k ∈ (trees_fast raw se).map (aggKey z grid) :=
    List.mem_dedup.mp hk
  obtain ⟨x₀, hx₀, hx₀k⟩ := List.mem_map.mp hkmem
  have hx₀f : x₀ ∈ (trees_fast raw se).filter
      (fun x => aggKey z grid x = k) :=
    List.mem_filter.mpr ⟨hx₀, decide_eq_true hx₀k⟩
  have hne : (trees_fast raw se).filter
      (fun x => aggKey z grid x = k) ≠ [] :=
    List.ne_nil_of_mem hx₀f
  refine ⟨hne, ?_, ?_, ?_⟩
  · rw [← hr]
  · rw [← hr]
    simp only
    rw [if_neg (by rwa [ne_eq, ← List.isEmpty_iff] at hne)]
  · intro x hx
    exact mem_trees_fast_dbh raw se x (List.mem_filter.mp hx).1

/-- Witness for the amended C3 at the one-point, null-magnitude
scenario. -/
theorem C3_amended_mean_with_default_witness :
    c3row ∈ agg_cache 13 64 (trees_fast [c3raw] []) ∧
    ((trees_fast [c3raw] []).filter
        (fun x => aggKey 13 64 x = (c3row.xtile, c3row.ytile, c3row.gx, c3row.gy)) ≠ [] ∧
    c3row.point_count = ((trees_fast [c3raw] []).filter
        (fun x => aggKey 13 64 x = (c3row.xtile, c3row.ytile, c3row.gx, c3row.gy))).length ∧
    c3row.dbh = some ((((trees_fast [c3raw] []).filter
        (fun x => aggKey 13 64 x = (c3row.xtile, c3row.ytile, c3row.gx, c3row.gy))).map
          FastRow.dbh).sum /
      (((trees_fast [c3raw] []).filter
        (fun x => aggKey 13 64 x = (c3row.xtile, c3row.ytile, c3row.gx, c3row.gy))).length)) ∧
    ∀ x ∈ (trees_fast [c3raw] []).filter
        (fun x => aggKey 13 64 x = (c3row.xtile, c3row.ytile, c3row.gx, c3row.gy)),
      ∃ t ∈ [c3raw], x.dbh = t.diameter_at_breast_height.getD 3) :=
  ⟨by rw [c3_trees_fast, c3_agg]; exact List.mem_singleton.mpr rfl,
    C3_amended_mean_with_default 13 64 [c3raw] [] c3row
      (by rw [c3_trees_fast, c3_agg]; exact List.mem_singleton.mpr rfl)⟩

/-! ### C4: tile containment -/

/-- C4 counterexample: at longitude 180 (inside the claimed closed
interval) the Tile Indexer assigns xtile = 2^13 = 8192 at zoom 13,
outside [0, 2^13 − 1] — the build does not clamp tile indices. -/
theorem C4_counterexample :
    xtile_of 180 13 = 8192 ∧ ¬xtile_of 180 13 ≤ 2 ^ 13 - 1 := by
  have h : xtile_of 180 13 = 8192 := by
    unfold xtile_of xnorm
    norm_num
  exact ⟨h, by rw [h]; norm_num⟩

theorem exp_pi_gt_23 : (23 : ℝ) < Real.exp Real.pi := by
  have he1 : (2.7182818283 : ℝ) ≤ Real.exp 1 := le_of_lt (by
    have := Real.exp_one_gt_d9
    linarith)
  have hmono : Real.exp 3.141592 ≤ Real.exp Real.pi :=
    Real.exp_le_exp.mpr Real.pi_gt_d6.le
  have hsplit : Real.exp (3.141592 : ℝ) = Real.exp 3 * Real.exp 0.141592 := by
    rw [← Real.exp_add]
    norm_num
  have h3 : Real.exp (3 : ℝ) = Real.exp 1 ^ (3 : ℕ) := by
    rw [← Real.exp_nat_mul]
    norm_num
  have h4 : Real.exp (0.141592 : ℝ) = Real.exp 0.035398 ^ (4 : ℕ) := by
    rw [← Real.exp_nat_mul]
    norm_num
  have h5 : (2.7182818283 : ℝ) ^ (3 : ℕ) ≤ Real.exp 1 ^ (3 : ℕ) :=
    pow_le_pow_left (by norm_num) he1 3
  have h6 : (1.035398 : ℝ) ^ (4 : ℕ) ≤ Real.exp 0.035398 ^ (4 : ℕ) :=
    pow_le_pow_left (by norm_num)
      (by linarith [Real.add_one_le_exp (0.035398 : ℝ)]) 4
  have hprod : (2.7182818283 : ℝ) ^ (3 : ℕ) * (1.035398 : ℝ) ^ (4 : ℕ)
      ≤ Real.exp 3 * Real.exp 0.141592 := by
    rw [h3, h4]
    exact mul_le_mul h5 h6 (by norm_num) (le_trans (by norm_num) h5)
  have hnum : (23 : ℝ) < (2.7182818283 : ℝ) ^ (3 : ℕ) * (1.035398 : ℝ) ^ (4 : ℕ) := by
    norm_num
  calc (23 : ℝ) < (2.7182818283 : ℝ) ^ (3 : ℕ) * (1.035398 : ℝ) ^ (4 : ℕ) := hnum
    _ ≤ Real.exp 3 * Real.exp 0.141592 := hprod
    _ = Real.exp 3.141592 := hsplit.symm
    _ ≤ Real.exp Real.pi := hmono

theorem ynorm_mem_Ico (lat : ℝ) (hlat : |lat| ≤ 85) :
    0 ≤ ynorm lat ∧ ynorm lat < 1 := by
  obtain ⟨hlat1, hlat2⟩ := abs_le.mp hlat
  have hclamp : latitude_clamped lat = lat := by
    unfold latitude_clamped
    rw [max_eq_left (by linarith : (-85.05112878 : ℝ) ≤ lat),
      min_eq_left (by linarith : lat ≤ (85.05112878 : ℝ))]
  set φ := radians lat with hφdef
  have hφabs : |φ| ≤ 17 * Real.pi / 36 := by
    have h1 : |φ| = |lat| * Real.pi / 180 := by
      rw [hφdef]
      unfold radians
      rw [abs_div, abs_mul, abs_of_pos Real.pi_pos,
        abs_of_pos (by norm_num : (0 : ℝ) < 180)]
    rw [h1]
    nlinarith [Real.pi_pos, abs_nonneg lat]
  have hφlt : |φ| < Real.pi / 2 :=
    lt_of_le_of_lt hφabs (by linarith [Real.pi_pos])
  obtain ⟨hφ1, hφ2⟩ := abs_lt.mp hφlt
  have hc : 0 < Real.cos φ := Real.cos_pos_of_mem_Ioo ⟨hφ1, hφ2⟩
  have hpyth : Real.sin φ ^ 2 + Real.cos φ ^ 2 = 1 := Real.sin_sq_add_cos_sq φ
  have hsin36 : (871 : ℝ) / 10000 < Real.sin (Real.pi / 36) := by
    have hb := Real.sin_gt_sub_cube
      (show (0 : ℝ) < Real.pi / 36 by linarith [Real.pi_pos])
      (show Real.pi / 36 ≤ 1 by linarith [Real.pi_lt_four])
    have hcube : Real.pi ^ 3 < (3.141593 : ℝ) ^ 3 :=
      pow_lt_pow_left Real.pi_lt_d6 Real.pi_pos.le (by norm_num)
    have hnum : (871 : ℝ) / 10000
        < Real.pi / 36 - (Real.pi / 36) ^ 3 / 4 := by
      have h1 := Real.pi_gt_d6
      have h2 : (Real.pi / 36) ^ 3 = Real.pi ^ 3 / 46656 := by ring
      rw [h2]
      nlinarith [hcube]
    linarith
  have hc0 : (871 : ℝ) / 10000 ≤ Real.cos φ := by
    have h1 : Real.cos (17 * Real.pi / 36) ≤ Real.cos |φ| :=
      Real.cos_le_cos_of_nonneg_of_le_pi (abs_nonneg φ)
        (by linarith [Real.pi_pos]) hφabs
    have h2 : Real.cos (17 * Real.pi / 36) = Real.sin (Real.pi / 36) := by
      rw [show 17 * Real.pi / 36 = Real.pi / 2 - Real.pi / 36 by ring,
        Real.cos_pi_div_two_sub]
    rw [Real.cos_abs φ] at h1
    rw [h2] at h1
    linarith
  have hs_up : Real.sin φ ≤ 1 := Real.sin_le_one φ
  have hsm1 : -1 < Real.sin φ := by
    nlinarith [mul_pos hc hc, sq_nonneg (Real.sin φ + 1)]
  have hv_eq : Real.tan φ + 1 / Real.cos φ = (1 + Real.sin φ) / Real.cos φ := by
    rw [Real.tan_eq_sin_div_cos]
    field_simp
    ring
  set v := (1 + Real.sin φ) / Real.cos φ with hvdef
  have hv_pos : 0 < v := div_pos (by linarith) hc
  have hv_up : v ≤ 20000 / 871 := by
    rw [hvdef, div_le_div_iff hc (by norm_num)]
    nlinarith
  have hv_lo : Real.cos φ / 2 ≤ v := by
    rw [hvdef, le_div_iff hc]
    nlinarith [hpyth, sq_nonneg (1 + Real.sin φ)]
  have hlog_up : Real.log v ≤ Real.pi :=
    (Real.log_le_iff_le_exp hv_pos).mpr
      (le_trans hv_up (by linarith [exp_pi_gt_23]))
  have hlog_lo : -Real.pi < Real.log v := by
    rw [Real.lt_log_iff_exp_lt hv_pos, Real.exp_neg]
    have hinv : (Real.exp Real.pi)⁻¹ < (23 : ℝ)⁻¹ := by
      apply inv_lt_inv_of_lt (by norm_num) exp_pi_gt_23
    have h23 : ((23 : ℝ))⁻¹ < 871 / 20000 := by norm_num
    linarith
  have hy : ynorm lat = (1 - Real.log v / Real.pi) / 2 := by
    unfold ynorm
    rw [hclamp, ← hφdef, hv_eq]
  constructor
  · rw [hy]
    have h1 : Real.log v / Real.pi ≤ 1 := (div_le_one Real.pi_pos).mpr hlog_up
    linarith
  · rw [hy]
    have h1 : -1 < Real.log v / Real.pi := by
      rw [lt_div_iff Real.pi_pos]
      linarith
    linarith

/-- C4 (amended): for every longitude in [−180, 180), every latitude
with |lat| ≤ 85° (inside the Mercator band — at the clamp boundary
itself the clamp constant 85.05112878 slightly exceeds
atan(sinh π) ≈ 85.05112877980659, so in exact arithmetic the normalized
y coordinate can be negative and ytile can be −1), and every zoom, the
assigned tile indices satisfy 0 ≤ xtile, ytile ≤ 2^z − 1. -/
theorem C4_amended_tile_containment (lon lat : ℝ) (z : ℕ)
    (hlon1 : -180 ≤ lon) (hlon2 : lon < 180) (hlat : |lat| ≤ 85) :
    0 ≤ xtile_of lon z ∧ xtile_of lon z ≤ 2 ^ z - 1 ∧
    0 ≤ ytile_of lat z ∧ ytile_of lat z ≤ 2 ^ z - 1 := by
  have hpow : (0 : ℝ) < (2 : ℝ) ^ z := pow_pos (by norm_num) z
  have hx0 : 0 ≤ xnorm lon := by unfold xnorm; linarith
  have hx1 : xnorm lon < 1 := by unfold xnorm; linarith
  obtain ⟨hy0, hy1⟩ := ynorm_mem_Ico lat hlat
  have hfloor : ∀ a : ℝ, 0 ≤ a → a < 1 →
      0 ≤ ⌊a * (2 : ℝ) ^ z⌋ ∧ ⌊a * (2 : ℝ) ^ z⌋ ≤ 2 ^ z - 1 := by
    intro a ha0 ha1
    constructor
    · exact Int.floor_nonneg.mpr (mul_nonneg ha0 hpow.le)
    · have hlt : ⌊a * (2 : ℝ) ^ z⌋ < 2 ^ z := by
        rw [Int.floor_lt]
        push_cast
        calc a * (2 : ℝ) ^ z < 1 * (2 : ℝ) ^ z :=
            mul_lt_mul_of_pos_right ha1 hpow
          _ = (2 : ℝ) ^ z := one_mul _
      omega
  exact ⟨(hfloor _ hx0 hx1).1, (hfloor _ hx0 hx1).2,
    (hfloor _ hy0 hy1).1, (hfloor _ hy0 hy1).2⟩

/-- Witness for the amended C4 at longitude 0, latitude 0, zoom 13. -/
theorem C4_amended_tile_containment_witness :
    ((-180 : ℝ) ≤ 0 ∧ (0 : ℝ) < 180 ∧ |(0 : ℝ)| ≤ 85) ∧
    (0 ≤ xtile_of 0 13 ∧ xtile_of 0 13 ≤ 2 ^ 13 - 1 ∧
      0 ≤ ytile_of 0 13 ∧ ytile_of 0 13 ≤ 2 ^ 13 - 1) :=
  ⟨⟨by norm_num, by norm_num, by norm_num⟩,
    C4_amended_tile_containment 0 0 13 (by norm_num) (by norm_num) (by norm_num)⟩

/-! ### C5: projection round trip -/

theorem sinh_half_log_ratio (s c : ℝ) (hc : 0 < c)
    (hpyth : s ^ 2 + c ^ 2 = 1) (hs1 : s < 1) (hsm1 : -1 < s) :
    Real.sinh (Real.log ((1 + s) / (1 - s)) / 2) = s / c := by
  have h1s : (0 : ℝ) < 1 - s := by linarith
  have h1s' : (0 : ℝ) < 1 + s := by linarith
  have hr_pos : 0 < (1 + s) / (1 - s) := div_pos h1s' h1s
  set E := Real.exp (Real.log ((1 + s) / (1 - s)) / 2) with hEdef
  have hE_pos : 0 < E := Real.exp_pos _
  have hE2 : E ^ 2 = (1 + s) / (1 - s) := by
    rw [hEdef, sq, ← Real.exp_add,
      show Real.log ((1 + s) / (1 - s)) / 2 + Real.log ((1 + s) / (1 - s)) / 2
        = Real.log ((1 + s) / (1 - s)) by ring]
    exact Real.exp_log hr_pos
  have hkey : (1 - s) * E = c := by
    have h2 : ((1 - s) * E) ^ 2 = c ^ 2 := by
      rw [mul_pow, hE2]
      field_simp
      linear_combination (s - 1) * hpyth
    have habs : |(1 - s) * E| = |c| := (sq_eq_sq_iff_abs_eq_abs _ _).mp h2
    rw [abs_of_pos (mul_pos h1s hE_pos), abs_of_pos hc] at habs
    exact habs
  have hE_val : E = c / (1 - s) := by
    rw [eq_div_iff h1s.ne']
    linear_combination hkey
  have hEinv : E⁻¹ = (1 - s) / c := by
    rw [hE_val, inv_div]
  rw [Real.sinh_eq, Real.exp_neg, ← hEdef, hEinv, hE_val]
  field_simp
  linear_combination c * hpyth

/-- C5: applying the projection and then the inverse projection
recovers the original coordinates exactly (in the exact-real model of
the float math) for every longitude, every zoom, and every latitude
inside the Mercator band. -/
theorem C5_projection_round_trip (lon lat zoom : ℝ)
    (hlat : |lat| ≤ WEB_MERCATOR_MAX_LAT) :
    world_px_to_lonlat (lonlat_to_world_px lon lat zoom).1
      (lonlat_to_world_px lon lat zoom).2 zoom = (lon, lat) := by
  have hlatM : |lat| ≤ 85.05112878 := hlat
  obtain ⟨hlat1, hlat2⟩ := abs_le.mp hlatM
  have hw : 0 < worldSize zoom := by
    unfold worldSize TILE_SIZE
    have h2 := Real.rpow_pos_of_pos (show (0 : ℝ) < 2 by norm_num) zoom
    nlinarith
  have hclamp : clamp lat (-WEB_MERCATOR_MAX_LAT) WEB_MERCATOR_MAX_LAT = lat := by
    unfold clamp WEB_MERCATOR_MAX_LAT
    rw [min_eq_right hlat2, max_eq_right hlat1]
  set φ := radians lat with hφdef
  have hφlt : |φ| < Real.pi / 2 := by
    have h1 : |φ| = |lat| * Real.pi / 180 := by
      rw [hφdef]
      unfold radians
      rw [abs_div, abs_mul, abs_of_pos Real.pi_pos,
        abs_of_pos (by norm_num : (0 : ℝ) < 180)]
    rw [h1]
    nlinarith [Real.pi_pos, abs_nonneg lat]
  obtain ⟨hφ1, hφ2⟩ := abs_lt.mp hφlt
  have hc : 0 < Real.cos φ := Real.cos_pos_of_mem_Ioo ⟨hφ1, hφ2⟩
  have hpyth := Real.sin_sq_add_cos_sq φ
  have hs1 : Real.sin φ < 1 := by
    nlinarith [mul_pos hc hc, sq_nonneg (Real.sin φ - 1)]
  have hsm1 : -1 < Real.sin φ := by
    nlinarith [mul_pos hc hc, sq_nonneg (Real.sin φ + 1)]
  simp only [lonlat_to_world_px, world_px_to_lonlat]
  rw [hclamp, ← hφdef]
  rw [Prod.mk.injEq]
  constructor
  · field_simp
    ring
  · have harg : Real.pi -
        2 * Real.pi * ((1 / 2 -
          Real.log ((1 + Real.sin φ) / (1 - Real.sin φ)) / (4 * Real.pi)) *
            worldSize zoom) / worldSize zoom
        = Real.log ((1 + Real.sin φ) / (1 - Real.sin φ)) / 2 := by
      field_simp
      ring
    rw [harg, sinh_half_log_ratio (Real.sin φ) (Real.cos φ) hc hpyth hs1 hsm1,
      ← Real.tan_eq_sin_div_cos, Real.arctan_tan hφ1 hφ2, hφdef]
    unfold degrees radians
    field_simp

/-- Witness for C5 at longitude 0, latitude 0, zoom 0. -/
theorem C5_projection_round_trip_witness :
    |(0 : ℝ)| ≤ WEB_MERCATOR_MAX_LAT ∧
    world_px_to_lonlat (lonlat_to_world_px 0 0 0).1
      (lonlat_to_world_px 0 0 0).2 0 = (0, 0) :=
  ⟨by unfold WEB_MERCATOR_MAX_LAT; norm_num,
    C5_projection_round_trip 0 0 0 (by unfold WEB_MERCATOR_MAX_LAT; norm_num)⟩

end SfTree
